import Mathlib

/-!
Verification development for the portal-graph / recursive-rendering subsystem
of the maybe_portal repository (src/state/real_view/level.rs and friends).

The Rust code works on f32 vectors (nalgebra); the embedding models the
numeric domain by exact rationals, so all definitions are executable and all
statements are about the real-valued algorithm, setting aside floating-point
rounding.  Field names follow the source where Lean allows it.
-/

/-- Three-component vector over the rationals, modelling nalgebra Vector3 of f32. -/
structure Vec3 where
  x : ℚ
  y : ℚ
  z : ℚ
deriving DecidableEq

def Vec3.add (a b : Vec3) : Vec3 := ⟨a.x + b.x, a.y + b.y, a.z + b.z⟩

def Vec3.sub (a b : Vec3) : Vec3 := ⟨a.x - b.x, a.y - b.y, a.z - b.z⟩

def Vec3.neg (a : Vec3) : Vec3 := ⟨-a.x, -a.y, -a.z⟩

/-- Scalar multiplication r * v. -/
def Vec3.smul (r : ℚ) (a : Vec3) : Vec3 := ⟨r * a.x, r * a.y, r * a.z⟩

def Vec3.dot (a b : Vec3) : ℚ := a.x * b.x + a.y * b.y + a.z * b.z

def Vec3.cross (a b : Vec3) : Vec3 :=
  ⟨a.y * b.z - a.z * b.y, a.z * b.x - a.x * b.z, a.x * b.y - a.y * b.x⟩

instance : Add Vec3 := ⟨Vec3.add⟩

instance : Sub Vec3 := ⟨Vec3.sub⟩

instance : Neg Vec3 := ⟨Vec3.neg⟩

theorem Vec3.ext_comp (a b : Vec3) (hx : a.x = b.x) (hy : a.y = b.y) (hz : a.z = b.z) :
    a = b := by
  cases a; cases b; simp_all

theorem Vec3.add_def (a b : Vec3) : a + b = ⟨a.x + b.x, a.y + b.y, a.z + b.z⟩ := rfl

theorem Vec3.sub_def (a b : Vec3) : a - b = ⟨a.x - b.x, a.y - b.y, a.z - b.z⟩ := rfl

/-- Model of f32 signum on the rationals: 1 for nonnegative input
(f32 signum of +0.0 is 1.0), -1 for negative input. -/
def fsign (r : ℚ) : ℚ := if r < 0 then -1 else 1

/-- Camera pose: eye position and look direction.  The remaining Camera fields
(aspect, fovy, near and far planes) never change during portal transforms and
only feed the external nalgebra projection-matrix constructor, so they are not
part of the modelled pose. -/
structure Camera where
  eye : Vec3
  target : Vec3
deriving DecidableEq

/-- PortalPos from level.rs: a portal aperture placed in a world. -/
structure PortalPos where
  world : ℕ
  pos : Vec3
  out_normal : Vec3
  up : Vec3
  width : ℚ
deriving DecidableEq

/-- Portal record from level.rs.  The GPU-side fields (portal_render bundle)
are not modelled; plane keeps only the vertex positions of the PlaneObject
quad, which is all will_see_face reads. -/
structure Portal where
  plane : List Vec3
  this_ : PortalPos
  connecting : ℕ × ℕ
  scale : ℚ
deriving DecidableEq

def defaultPortal : Portal :=
  ⟨[], ⟨0, ⟨0, 0, 0⟩, ⟨0, 0, 0⟩, ⟨0, 0, 0⟩, 0⟩, (0, 0), 0⟩

/-- Coord from level.rs: a pose projected into a portal-local basis. -/
structure Coord where
  forward : ℚ
  up : ℚ
  right : ℚ
  target_forward : ℚ
  target_up : ℚ
  target_right : ℚ
deriving DecidableEq

/-- Coord::from_camera_portal: crossing projection.  The displacement from the
portal is scaled by portal.scale before being projected on the
(normal, up, right) basis; the look direction is projected unscaled. -/
def Coord.fromCameraPortal (camera : Camera) (portal : Portal) : Coord :=
  let dis := Vec3.smul portal.scale (camera.eye - portal.this_.pos)
  let forward := portal.this_.out_normal.dot dis
  let up := portal.this_.up.dot dis
  let right := (portal.this_.up.cross portal.this_.out_normal).dot dis
  let target_forward := portal.this_.out_normal.dot camera.target
  let target_up := portal.this_.up.dot camera.target
  let target_right := (portal.this_.up.cross portal.this_.out_normal).dot camera.target
  ⟨forward, up, right, target_forward, target_up, target_right⟩

/-- The half-width clamp applied to the right component of the view
projection: scale the lateral offset only up to the half-width, the excess
beyond it being added unscaled (the body of the inner right block of
Coord::from_camera_portal_for_view). -/
def clampView (r w s : ℚ) : ℚ :=
  if w ≤ |r| then
    let delta := |r| - w
    fsign r * (w * s + delta)
  else r * s

/-- Coord::from_camera_portal_for_view: view projection.  The displacement is
projected unscaled; the up component is then scaled by portal.scale, and the
right component passes through the half-width clamp. -/
def Coord.fromCameraPortalForView (camera : Camera) (portal : Portal) : Coord :=
  let dis := camera.eye - portal.this_.pos
  let forward := portal.this_.out_normal.dot dis
  let up := portal.this_.up.dot dis * portal.scale
  let right := clampView ((portal.this_.up.cross portal.this_.out_normal).dot dis)
    portal.this_.width portal.scale
  let target_forward := portal.this_.out_normal.dot camera.target
  let target_up := portal.this_.up.dot camera.target
  let target_right := (portal.this_.up.cross portal.this_.out_normal).dot camera.target
  ⟨forward, up, right, target_forward, target_up, target_right⟩

/-- Coord::change_camera_without_forward: reconstruct a pose at a linked
portal, dropping the forward component of the position (the forward term is
commented out in the source). -/
def Coord.changeCameraWithoutForward (c : Coord) (camera : Camera) (portal : PortalPos) :
    Camera :=
  let eye := Vec3.smul c.up portal.up - Vec3.smul c.right (portal.up.cross portal.out_normal)
      + portal.pos
  let target := Vec3.smul c.target_up portal.up - Vec3.smul c.target_forward portal.out_normal
      + Vec3.smul c.target_right (portal.up.cross (Vec3.neg portal.out_normal))
  { camera with eye := eye, target := target }

/-- Coord::change_camera_for_portal: like the without-forward reconstruction
but the position additionally subtracts out_normal * forward. -/
def Coord.changeCameraForPortal (c : Coord) (camera : Camera) (portal : PortalPos) :
    Camera :=
  let eye := Vec3.smul c.up portal.up - Vec3.smul c.forward portal.out_normal
      - Vec3.smul c.right (portal.up.cross portal.out_normal) + portal.pos
  let target := Vec3.smul c.target_up portal.up - Vec3.smul c.target_forward portal.out_normal
      + Vec3.smul c.target_right (portal.up.cross (Vec3.neg portal.out_normal))
  { camera with eye := eye, target := target }

/-- Claim C4: the without-forward reconstruction produces position
linkedUp*up - (linkedUp x linkedNormal)*right + linkedPosition (no forward
component) and direction
linkedUp*targetUp - linkedNormal*targetForward + (linkedUp x -linkedNormal)*targetRight;
the for-portal reconstruction is identical except the position additionally
subtracts linkedNormal*forward, and the two variants produce the same
direction. -/
theorem changeCamera_reconstruction (c : Coord) (camera : Camera) (portal : PortalPos) :
    (c.changeCameraWithoutForward camera portal).eye
        = Vec3.smul c.up portal.up
          - Vec3.smul c.right (portal.up.cross portal.out_normal) + portal.pos
      ∧ (c.changeCameraWithoutForward camera portal).target
        = Vec3.smul c.target_up portal.up
          - Vec3.smul c.target_forward portal.out_normal
          + Vec3.smul c.target_right (portal.up.cross (Vec3.neg portal.out_normal))
      ∧ (c.changeCameraForPortal camera portal).eye
        = (c.changeCameraWithoutForward camera portal).eye
          - Vec3.smul c.forward portal.out_normal
      ∧ (c.changeCameraForPortal camera portal).target
        = (c.changeCameraWithoutForward camera portal).target := by
  refine ⟨rfl, rfl, ?_, rfl⟩
  apply Vec3.ext_comp <;>
    simp [Coord.changeCameraForPortal, Coord.changeCameraWithoutForward,
      Vec3.smul, Vec3.cross, Vec3.sub_def, Vec3.add_def, Vec3.neg] <;> ring

/-- Claim C5: the view projection projects the unscaled displacement on the
(normal, up, right = up x normal) basis; the up component is multiplied by the
scale; the right component r is multiplied by the scale when its absolute
value is below the half-width and otherwise equals
sign(r) * (width * scale + (abs r - width)); the look-direction components are
projected unscaled. -/
theorem fromCameraPortalForView_spec (camera : Camera) (portal : Portal) :
    (Coord.fromCameraPortalForView camera portal).forward
        = portal.this_.out_normal.dot (camera.eye - portal.this_.pos)
      ∧ (Coord.fromCameraPortalForView camera portal).up
        = portal.this_.up.dot (camera.eye - portal.this_.pos) * portal.scale
      ∧ (|(portal.this_.up.cross portal.this_.out_normal).dot
            (camera.eye - portal.this_.pos)| < portal.this_.width →
          (Coord.fromCameraPortalForView camera portal).right
            = (portal.this_.up.cross portal.this_.out_normal).dot
                (camera.eye - portal.this_.pos) * portal.scale)
      ∧ (portal.this_.width ≤ |(portal.this_.up.cross portal.this_.out_normal).dot
            (camera.eye - portal.this_.pos)| →
          (Coord.fromCameraPortalForView camera portal).right
            = fsign ((portal.this_.up.cross portal.this_.out_normal).dot
                  (camera.eye - portal.this_.pos))
              * (portal.this_.width * portal.scale
                + (|(portal.this_.up.cross portal.this_.out_normal).dot
                      (camera.eye - portal.this_.pos)| - portal.this_.width)))
      ∧ (Coord.fromCameraPortalForView camera portal).target_forward
        = portal.this_.out_normal.dot camera.target
      ∧ (Coord.fromCameraPortalForView camera portal).target_up
        = portal.this_.up.dot camera.target
      ∧ (Coord.fromCameraPortalForView camera portal).target_right
        = (portal.this_.up.cross portal.this_.out_normal).dot camera.target := by
  refine ⟨rfl, rfl, ?_, ?_, rfl, rfl, rfl⟩
  · intro h
    simp [Coord.fromCameraPortalForView, clampView, not_le.mpr h]
  · intro h
    simp [Coord.fromCameraPortalForView, clampView, h]

/-- Four-component vector (homogeneous coordinates). -/
structure Vec4 where
  x : ℚ
  y : ℚ
  z : ℚ
  w : ℚ
deriving DecidableEq

/-- 4x4 matrix, modelling nalgebra Matrix4 of f32 (row-major entries). -/
structure Mat4 where
  m00 : ℚ
  m01 : ℚ
  m02 : ℚ
  m03 : ℚ
  m10 : ℚ
  m11 : ℚ
  m12 : ℚ
  m13 : ℚ
  m20 : ℚ
  m21 : ℚ
  m22 : ℚ
  m23 : ℚ
  m30 : ℚ
  m31 : ℚ
  m32 : ℚ
  m33 : ℚ
deriving DecidableEq

def Mat4.mulVec4 (m : Mat4) (v : Vec4) : Vec4 :=
  ⟨m.m00 * v.x + m.m01 * v.y + m.m02 * v.z + m.m03 * v.w,
   m.m10 * v.x + m.m11 * v.y + m.m12 * v.z + m.m13 * v.w,
   m.m20 * v.x + m.m21 * v.y + m.m22 * v.z + m.m23 * v.w,
   m.m30 * v.x + m.m31 * v.y + m.m32 * v.z + m.m33 * v.w⟩

def Mat4.identity : Mat4 :=
  ⟨1, 0, 0, 0, 0, 1, 0, 0, 0, 0, 1, 0, 0, 0, 0, 1⟩

/-- The corner of the quad projected through the view matrix and divided by
its homogeneous w component, as in the loop body of will_see_face (rational
division, with the division-by-zero convention of the rationals standing for
the f32 exceptional values). -/
def projectVertex (view : Mat4) (p : Vec3) : Vec4 :=
  let r := view.mulVec4 ⟨p.x, p.y, p.z, 1⟩
  ⟨r.x / r.w, r.y / r.w, r.z / r.w, r.w / r.w⟩

/-- The loop of will_see_face: fold over the vertices keeping the running
screen-space bounds and the front flag. -/
def willSeeFaceAux (view : Mat4) (vs : List Vec3)
    (mn_x mx_x mn_y mx_y : ℚ) (front : Bool) : Bool :=
  match vs with
  | [] => if front then true else false
  | p :: rest =>
    let result := projectVertex view p
    let front := if 0 ≤ result.z ∧ result.z ≤ 1 then true else front
    willSeeFaceAux view rest (min result.x mn_x) (max result.x mx_x)
      (min result.y mn_y) (max result.y mx_y) front

/-- will_see_face from level.rs: project every vertex of the plane quad,
perspective-divide, track screen bounds and whether any projected depth lies
in the unit interval; only the latter decides the result. -/
def willSeeFace (view : Mat4) (vertex : List Vec3) : Bool :=
  willSeeFaceAux view vertex 2 (-2) 2 (-2) false

theorem willSeeFaceAux_spec (view : Mat4) (vs : List Vec3)
    (mn_x mx_x mn_y mx_y : ℚ) (front : Bool) :
    willSeeFaceAux view vs mn_x mx_x mn_y mx_y front = true
      ↔ front = true ∨ ∃ p ∈ vs, 0 ≤ (projectVertex view p).z ∧ (projectVertex view p).z ≤ 1 := by
  induction vs generalizing mn_x mx_x mn_y mx_y front with
  | nil => cases front <;> simp [willSeeFaceAux]
  | cons p rest ih =>
    by_cases h : 0 ≤ (projectVertex view p).z ∧ (projectVertex view p).z ≤ 1
    · simp [willSeeFaceAux, h, ih]
    · simp only [willSeeFaceAux, if_neg h, ih]
      constructor
      · rintro (hf | ⟨q, hq, hz⟩)
        · exact Or.inl hf
        · exact Or.inr ⟨q, List.mem_cons_of_mem _ hq, hz⟩
      · rintro (hf | ⟨q, hq, hz⟩)
        · exact Or.inl hf
        · rcases List.mem_cons.mp hq with rfl | hq
          · exact absurd hz h
          · exact Or.inr ⟨q, hq, hz⟩

/-- Claim C8: will_see_face returns true iff at least one of the quad corners,
after multiplication by the view-projection matrix and perspective divide by
w, has a depth (z) in the unit interval; in particular it returns false when
all projected depths lie outside that interval, and the computed screen-space
x and y bounds never influence the result. -/
theorem willSeeFace_iff_depth_in_range (view : Mat4) (vertex : List Vec3) :
    willSeeFace view vertex = true
      ↔ ∃ p ∈ vertex, 0 ≤ (projectVertex view p).z ∧ (projectVertex view p).z ≤ 1 := by
  unfold willSeeFace
  rw [willSeeFaceAux_spec]
  simp

/-- A world: its list of portals.  The static render batch and GPU bundle do
not enter any modelled computation. -/
structure LevelM where
  portals : List Portal
deriving DecidableEq

/-- MagicLevel state touched by the crossing protocol.  bodyTranslation is
the controlled rigid body translation inside the physics collaborator,
halfExtents the cuboid half-extents of the body bounding collider (always a
cuboid for the constructed body, so the as_cuboid_mut downcast in the source
always succeeds).  portals_map is the handle-to-(world, portal) association;
physics handles are modelled as naturals in insertion order. -/
structure MagicLevel where
  levels : List LevelM
  me_world : ℕ
  bodyTranslation : Vec3
  halfExtents : Vec3
  portals_map : List (ℕ × ℕ × ℕ)
  meColliderHandle : ℕ
deriving DecidableEq

/-- A collision event drained from the physics collaborator. -/
structure ColEvent where
  collider1 : ℕ
  collider2 : ℕ
  stopped : Bool
deriving DecidableEq

/-- HashMap get on the handle-to-portal association (keys are unique in every
constructed level). -/
def portalsMapGet (m : List (ℕ × ℕ × ℕ)) (h : ℕ) : Option (ℕ × ℕ) :=
  match m with
  | [] => none
  | (k, w, i) :: rest => if k = h then some (w, i) else portalsMapGet rest h

/-- The portal stored at world w, index i.  Out-of-range indexing panics in
the source; the default value is never reached from a well-formed state. -/
def portalAt (levels : List LevelM) (w i : ℕ) : Portal :=
  (levels.getD w ⟨[]⟩).portals.getD i defaultPortal

/-- The collider handle the event attributes to the portal sensor: the one
that is not the controlled body collider. -/
def eventPortalHandle (st : MagicLevel) (e : ColEvent) : ℕ :=
  if e.collider1 = st.meColliderHandle then e.collider2 else e.collider1

/-- One iteration of the event-drain loop in MagicLevel::update: skip stopped
events, look the sensor handle up in portals_map, deduplicate against the
coled set, then apply the crossing (projection at the entered portal,
without-forward reconstruction at the linked portal, z snap, epsilon push
along the linked normal, write-back of the pose, lateral half-extent rescale,
world switch). -/
def procEvent (st : MagicLevel) (camera : Camera) (coled : List (ℕ × ℕ)) (e : ColEvent) :
    MagicLevel × Camera × List (ℕ × ℕ) :=
  if e.stopped then (st, camera, coled) else
  match portalsMapGet st.portals_map (eventPortalHandle st e) with
  | none => (st, camera, coled)
  | some (world, idx) =>
    if (world, idx) ∈ coled then (st, camera, coled)
    else
      let portal := portalAt st.levels world idx
      let camera_view := Coord.fromCameraPortal camera portal
      let connecting := (portalAt st.levels portal.connecting.1 portal.connecting.2).this_
      let camera1 := camera_view.changeCameraWithoutForward camera connecting
      let eye2 := Vec3.mk camera1.eye.x camera1.eye.y connecting.pos.z
          + Vec3.smul 0.02 connecting.out_normal
      let camera2 := { camera1 with eye := eye2 }
      let st2 : MagicLevel :=
        { st with
          bodyTranslation := camera2.eye,
          halfExtents := ⟨st.halfExtents.x * portal.scale,
            st.halfExtents.y * portal.scale, st.halfExtents.z⟩,
          me_world := connecting.world }
      (st2, camera2, (world, idx) :: coled)

/-- The full event-drain loop. -/
def procEvents (st : MagicLevel) (camera : Camera) (coled : List (ℕ × ℕ)) :
    List ColEvent → MagicLevel × Camera × List (ℕ × ℕ)
  | [] => (st, camera, coled)
  | e :: rest =>
    let r := procEvent st camera coled e
    procEvents r.1 r.2.1 r.2.2 rest

/-- MagicLevel::update after the physics step: drain the collision events,
then overwrite the camera eye with the rigid body translation (the final
statement of the source function).  The physics step itself is the external
collaborator; the drained events and the post-step body translation are the
inputs of this model. -/
def MagicLevel.update (st : MagicLevel) (camera : Camera) (events : List ColEvent) :
    MagicLevel × Camera :=
  let r := procEvents st camera [] events
  (r.1, { r.2.1 with eye := r.1.bodyTranslation })

/-- Claim C10: after every call to MagicLevel::update returns, whether or not
a crossing occurred, the camera eye equals the controlled body translation in
the physics state: the final statement overwrites the eye with the body
translation, so the crossing mutation survives only through the
set_translation write-back performed during the crossing. -/
theorem update_eye_eq_body (st : MagicLevel) (camera : Camera) (events : List ColEvent) :
    (MagicLevel.update st camera events).2.eye
      = (MagicLevel.update st camera events).1.bodyTranslation := rfl

theorem procEvent_stopped (st : MagicLevel) (cam : Camera) (coled : List (ℕ × ℕ))
    (e : ColEvent) (h : e.stopped = true) :
    procEvent st cam coled e = (st, cam, coled) := by
  simp [procEvent, h]

theorem procEvent_dup (st : MagicLevel) (cam : Camera) (coled : List (ℕ × ℕ))
    (e : ColEvent) (w i : ℕ) (h : e.stopped = false)
    (hl : portalsMapGet st.portals_map (eventPortalHandle st e) = some (w, i))
    (hm : (w, i) ∈ coled) :
    procEvent st cam coled e = (st, cam, coled) := by
  simp [procEvent, h, hl, hm]

theorem procEvent_preserves (st : MagicLevel) (cam : Camera) (coled : List (ℕ × ℕ))
    (e : ColEvent) :
    (procEvent st cam coled e).1.portals_map = st.portals_map
      ∧ (procEvent st cam coled e).1.meColliderHandle = st.meColliderHandle := by
  unfold procEvent
  split
  · exact ⟨rfl, rfl⟩
  · split
    · exact ⟨rfl, rfl⟩
    · split
      · exact ⟨rfl, rfl⟩
      · exact ⟨rfl, rfl⟩

theorem procEvent_coled_new (st : MagicLevel) (cam : Camera) (coled : List (ℕ × ℕ))
    (e : ColEvent) (w i : ℕ) (h : e.stopped = false)
    (hl : portalsMapGet st.portals_map (eventPortalHandle st e) = some (w, i))
    (hm : ¬ (w, i) ∈ coled) :
    (procEvent st cam coled e).2.2 = (w, i) :: coled := by
  simp [procEvent, h, hl, hm]

theorem eventPortalHandle_congr (st st2 : MagicLevel) (e : ColEvent)
    (h : st2.meColliderHandle = st.meColliderHandle) :
    eventPortalHandle st2 e = eventPortalHandle st e := by
  unfold eventPortalHandle
  rw [h]

/-- Claim C6: within one call to MagicLevel::update, at most one crossing is
applied per (world, portal) pair: a stopped event causes no crossing at all,
and a second contact event in the same tick resolving to the same pair causes
no additional world switch, rescale or pose change. -/
theorem update_dedup_per_tick :
    (∀ (st : MagicLevel) (cam : Camera) (e : ColEvent) (l : List ColEvent),
        e.stopped = true →
        MagicLevel.update st cam (e :: l) = MagicLevel.update st cam l)
  ∧ (∀ (st : MagicLevel) (cam : Camera) (e e2 : ColEvent) (l : List ColEvent) (w i : ℕ),
        e.stopped = false →
        portalsMapGet st.portals_map (eventPortalHandle st e) = some (w, i) →
        portalsMapGet st.portals_map (eventPortalHandle st e2) = some (w, i) →
        MagicLevel.update st cam (e :: e2 :: l) = MagicLevel.update st cam (e :: l)) := by
  constructor
  · intro st cam e l h
    unfold MagicLevel.update
    simp [procEvents, procEvent_stopped st cam [] e h]
  · intro st cam e e2 l w i he h1 h2
    unfold MagicLevel.update
    have key : procEvents st cam [] (e :: e2 :: l) = procEvents st cam [] (e :: l) := by
      simp only [procEvents]
      have hpr := procEvent_preserves st cam [] e
      have hcol := procEvent_coled_new st cam [] e w i he h1 (by simp)
      have hskip : procEvent (procEvent st cam [] e).1 (procEvent st cam [] e).2.1
          (procEvent st cam [] e).2.2 e2
          = ((procEvent st cam [] e).1, (procEvent st cam [] e).2.1,
             (procEvent st cam [] e).2.2) := by
        by_cases hs : e2.stopped = true
        · exact procEvent_stopped _ _ _ _ hs
        · refine procEvent_dup _ _ _ _ w i (by simpa using hs) ?_ ?_
          · rw [hpr.1, eventPortalHandle_congr st _ e2 hpr.2]
            exact h2
          · rw [hcol]
            simp
      rw [hskip]
    rw [key]

/-- The linked aperture of the portal stored at (w, i). -/
def linkedOf (st : MagicLevel) (w i : ℕ) : PortalPos :=
  (portalAt st.levels (portalAt st.levels w i).connecting.1
    (portalAt st.levels w i).connecting.2).this_

/-- The without-forward reconstruction of the crossing projection of the
camera pose at the entered portal, evaluated at the linked aperture. -/
def crossedCamera (cam : Camera) (P : Portal) (L : PortalPos) : Camera :=
  (Coord.fromCameraPortal cam P).changeCameraWithoutForward cam L

/-- The body position after a crossing: the reconstructed position with its
vertical coordinate forced to the linked z coordinate and then pushed
0.02 outward along the linked normal. -/
def crossedEye (cam : Camera) (P : Portal) (L : PortalPos) : Vec3 :=
  Vec3.mk (crossedCamera cam P L).eye.x (crossedCamera cam P L).eye.y L.pos.z
    + Vec3.smul 0.02 L.out_normal

/-- Claim C2: a single non-stopped contact event resolving to portal (w, i)
makes MagicLevel::update produce exactly the crossed state: the body pose is
the without-forward reconstruction at the linked aperture L of the crossing
projection at the entered portal, with vertical coordinate forced to the z of
L and pushed 0.02 along the outward normal of L; the x and y collision
half-extents are multiplied by the portal scale; me_world becomes the world of
L; and the pose is written back into the rigid body (bodyTranslation). -/
theorem update_single_crossing (st : MagicLevel) (cam : Camera) (e : ColEvent) (w i : ℕ)
    (he : e.stopped = false)
    (hl : portalsMapGet st.portals_map (eventPortalHandle st e) = some (w, i)) :
    MagicLevel.update st cam [e]
      = ({ st with
            me_world := (linkedOf st w i).world,
            bodyTranslation := crossedEye cam (portalAt st.levels w i) (linkedOf st w i),
            halfExtents := ⟨st.halfExtents.x * (portalAt st.levels w i).scale,
              st.halfExtents.y * (portalAt st.levels w i).scale, st.halfExtents.z⟩ },
         { cam with
            eye := crossedEye cam (portalAt st.levels w i) (linkedOf st w i),
            target := (crossedCamera cam (portalAt st.levels w i) (linkedOf st w i)).target }) := by
  simp [MagicLevel.update, procEvents, procEvent, he, hl, crossedEye, crossedCamera,
    linkedOf, Coord.changeCameraWithoutForward]

/-- The right basis vector chosen in Level::add_portal: x when the outward
normal has zero x and y components, otherwise (normal.y, -normal.x, 0). -/
def mkRight (n : Vec3) : Vec3 :=
  if n.x = 0 ∧ n.y = 0 then ⟨1, 0, 0⟩ else ⟨n.y, -n.x, 0⟩

/-- Modelled from the spec: the corner positions of the portal quad built by
PlaneObject::new, whose renderer3d module is not under src; the spec calls it
the portal quad, so the four corners sit at extent r from the center along
the up and right axes.  Texture data is dropped.  No theorem depends on the
exact corner layout; only concrete witnesses instantiate it. -/
def planeVertices (center : Vec3) (r : ℚ) (up right : Vec3) : List Vec3 :=
  [center + Vec3.smul r up + Vec3.smul r right,
   center + Vec3.smul r up - Vec3.smul r right,
   center - Vec3.smul r up + Vec3.smul r right,
   center - Vec3.smul r up - Vec3.smul r right]

/-- Construction-time state of MagicLevel::new: worlds under construction,
the next collider handle of the physics collaborator (handles are modelled in
insertion order) and the handle-to-portal map. -/
structure ConsState where
  levels : List LevelM
  nextHandle : ℕ
  portals_map : List (ℕ × ℕ × ℕ)
deriving DecidableEq

/-- Level::add_portal: build the portal quad, insert the sensor collider
(consuming the next handle), push the portal with the default link (0, 0);
return the level, the sensor handle, the new portal index and the bumped
handle counter.  The tex_delta argument only feeds texture coordinates and is
dropped. -/
def LevelM.addPortal (lv : LevelM) (next : ℕ) (this_ : PortalPos) (r : ℚ) (scale : ℚ) :
    LevelM × ℕ × ℕ × ℕ :=
  let right := mkRight this_.out_normal
  let plane := planeVertices this_.pos r this_.up right
  let idx := lv.portals.length
  (⟨lv.portals ++ [⟨plane, this_, (0, 0), scale⟩]⟩, next, idx, next + 1)

/-- In-place update of the element at an index (no-op out of range). -/
def listModify {α : Type} : List α → ℕ → (α → α) → List α
  | [], _, _ => []
  | a :: as, 0, f => f a :: as
  | a :: as, n + 1, f => a :: listModify as n f

/-- Overwrite the connecting link of the portal at (w, i). -/
def setConnecting (levels : List LevelM) (w i : ℕ) (c : ℕ × ℕ) : List LevelM :=
  listModify levels w (fun lv => ⟨listModify lv.portals i (fun p => { p with connecting := c })⟩)

/-- MagicLevel::add_portal: create a portal in each of the two worlds, with
scale factors scale and 1/scale, link them to each other, and record both
sensor handles in portals_map.  Besides the new state the model returns the
(world, index) addresses of the two created portals so theorems can name
them. -/
def magicAddPortal (st : ConsState) (p1 p2 : PortalPos) (r1 r2 scale : ℚ) :
    ConsState × (ℕ × ℕ) × (ℕ × ℕ) :=
  let res1 := (st.levels.getD p1.world ⟨[]⟩).addPortal st.nextHandle p1 r1 scale
  let levels1 := st.levels.set p1.world res1.1
  let handle := res1.2.1
  let idx := res1.2.2.1
  let res2 := (levels1.getD p2.world ⟨[]⟩).addPortal res1.2.2.2 p2 r2 (1 / scale)
  let levels2 := levels1.set p2.world res2.1
  let handle2 := res2.2.1
  let idx2 := res2.2.2.1
  let levels3 := setConnecting levels2 p1.world idx (p2.world, idx2)
  let levels4 := setConnecting levels3 p2.world idx2 (p1.world, idx)
  (⟨levels4, res2.2.2.2,
      st.portals_map ++ [(handle, p1.world, idx), (handle2, p2.world, idx2)]⟩,
   (p1.world, idx), (p2.world, idx2))

theorem listModify_length {α : Type} (l : List α) (i : ℕ) (f : α → α) :
    (listModify l i f).length = l.length := by
  induction l generalizing i with
  | nil => rfl
  | cons a as ih =>
    cases i with
    | zero => rfl
    | succ n => simp [listModify, ih]

theorem getD_listModify_eq {α : Type} (l : List α) (i : ℕ) (f : α → α) (d : α)
    (h : i < l.length) : (listModify l i f).getD i d = f (l.getD i d) := by
  induction l generalizing i with
  | nil => simp at h
  | cons a as ih =>
    cases i with
    | zero => rfl
    | succ n =>
      simp only [listModify, List.getD_cons_succ]
      exact ih n (by simpa using h)

theorem getD_listModify_ne {α : Type} (l : List α) (i j : ℕ) (f : α → α) (d : α)
    (h : i ≠ j) : (listModify l i f).getD j d = l.getD j d := by
  induction l generalizing i j with
  | nil => rfl
  | cons a as ih =>
    cases i with
    | zero =>
      cases j with
      | zero => exact absurd rfl h
      | succ m => rfl
    | succ n =>
      cases j with
      | zero => rfl
      | succ m =>
        simp only [listModify, List.getD_cons_succ]
        exact ih n m (by omega)

theorem getD_set_eq2 {α : Type} (l : List α) (i : ℕ) (a d : α) (h : i < l.length) :
    (l.set i a).getD i d = a := by
  induction l generalizing i with
  | nil => simp at h
  | cons b bs ih =>
    cases i with
    | zero => rfl
    | succ n =>
      simp only [List.set, List.getD_cons_succ]
      exact ih n (by simpa using h)

theorem getD_set_ne2 {α : Type} (l : List α) (i j : ℕ) (a d : α) (h : i ≠ j) :
    (l.set i a).getD j d = l.getD j d := by
  induction l generalizing i j with
  | nil => rfl
  | cons b bs ih =>
    cases i with
    | zero =>
      cases j with
      | zero => exact absurd rfl h
      | succ m => rfl
    | succ n =>
      cases j with
      | zero => rfl
      | succ m =>
        simp only [List.set, List.getD_cons_succ]
        exact ih n m (by omega)

theorem getD_append_self {α : Type} (l : List α) (a d : α) :
    (l ++ [a]).getD l.length d = a := by
  induction l with
  | nil => rfl
  | cons b bs ih =>
    simp only [List.cons_append, List.length_cons, List.getD_cons_succ]
    exact ih

/-- Claim C3: for every portal pair created by MagicLevel::add_portal the
links are symmetric, the portal created from p1 links to the address of the
portal created from p2 and back, and the two scale factors are scale and
1/scale, whose product is exactly 1 (for nonzero scale, over exact
arithmetic).  The construction of every level goes through this function, so
this holds for every pair in every constructed level. -/
theorem addPortal_links_symmetric (st : ConsState) (p1 p2 : PortalPos) (r1 r2 scale : ℚ)
    (h1 : p1.world < st.levels.length) (h2 : p2.world < st.levels.length)
    (hs : scale ≠ 0) :
    (portalAt (magicAddPortal st p1 p2 r1 r2 scale).1.levels
        (magicAddPortal st p1 p2 r1 r2 scale).2.1.1
        (magicAddPortal st p1 p2 r1 r2 scale).2.1.2).connecting
      = (magicAddPortal st p1 p2 r1 r2 scale).2.2
    ∧ (portalAt (magicAddPortal st p1 p2 r1 r2 scale).1.levels
        (magicAddPortal st p1 p2 r1 r2 scale).2.2.1
        (magicAddPortal st p1 p2 r1 r2 scale).2.2.2).connecting
      = (magicAddPortal st p1 p2 r1 r2 scale).2.1
    ∧ (portalAt (magicAddPortal st p1 p2 r1 r2 scale).1.levels
        (magicAddPortal st p1 p2 r1 r2 scale).2.1.1
        (magicAddPortal st p1 p2 r1 r2 scale).2.1.2).scale = scale
    ∧ (portalAt (magicAddPortal st p1 p2 r1 r2 scale).1.levels
        (magicAddPortal st p1 p2 r1 r2 scale).2.2.1
        (magicAddPortal st p1 p2 r1 r2 scale).2.2.2).scale = 1 / scale
    ∧ (portalAt (magicAddPortal st p1 p2 r1 r2 scale).1.levels
          (magicAddPortal st p1 p2 r1 r2 scale).2.1.1
          (magicAddPortal st p1 p2 r1 r2 scale).2.1.2).scale
        * (portalAt (magicAddPortal st p1 p2 r1 r2 scale).1.levels
            (magicAddPortal st p1 p2 r1 r2 scale).2.2.1
            (magicAddPortal st p1 p2 r1 r2 scale).2.2.2).scale = 1 := by
  simp only [magicAddPortal, LevelM.addPortal]
  by_cases hw : p1.world = p2.world
  · -- both portals land in the same world list
    rw [← hw] at h2 ⊢
    set W := p1.world with hW
    set lv1 := st.levels.getD W ⟨[]⟩ with hlv1
    set n1 := lv1.portals.length with hn1
    set P1 : Portal := ⟨planeVertices p1.pos r1 p1.up (mkRight p1.out_normal), p1, (0, 0), scale⟩
      with hP1
    set levels1 := st.levels.set W ⟨lv1.portals ++ [P1]⟩ with hlevels1
    have hget1 : levels1.getD W ⟨[]⟩ = ⟨lv1.portals ++ [P1]⟩ := getD_set_eq2 _ _ _ _ h1
    rw [hget1]
    set P2 : Portal := ⟨planeVertices p2.pos r2 p2.up (mkRight p2.out_normal), p2, (0, 0),
      1 / scale⟩ with hP2
    simp only [List.length_append, List.length_singleton]
    set base : List Portal := lv1.portals ++ [P1] ++ [P2] with hbase
    have hbl : base.length = n1 + 2 := by simp [hbase]
    set levels2 := levels1.set W ⟨lv1.portals ++ [P1] ++ [P2]⟩ with hlevels2
    have hl2len : levels2.length = st.levels.length := by
      simp [hlevels2, hlevels1]
    have hget2 : levels2.getD W ⟨[]⟩ = ⟨base⟩ := by
      rw [hlevels2]
      exact getD_set_eq2 _ _ _ _ (by rw [hlevels1]; simpa using h1)
    -- the two setConnecting calls act on the same world entry
    set f1 : Portal → Portal := fun p => { p with connecting := (W, n1 + 1) } with hf1
    set f2 : Portal → Portal := fun p => { p with connecting := (W, n1) } with hf2
    have hget4 : (setConnecting (setConnecting levels2 W n1 (W, n1 + 1)) W (n1 + 1)
        (W, n1)).getD W ⟨[]⟩ = ⟨listModify (listModify base n1 f1) (n1 + 1) f2⟩ := by
      unfold setConnecting
      rw [getD_listModify_eq _ _ _ _ (by rw [listModify_length, hl2len]; exact h1),
        getD_listModify_eq _ _ _ _ (by rw [hl2len]; exact h1), hget2]
    have hbase1 : base.getD n1 defaultPortal = P1 := by
      rw [hbase]
      rw [List.getD_append _ _ _ _ (by simp)]
      exact getD_append_self _ _ _
    have hbase2 : base.getD (n1 + 1) defaultPortal = P2 := by
      rw [hbase]
      have : n1 + 1 = (lv1.portals ++ [P1]).length := by simp
      rw [this]
      exact getD_append_self _ _ _
    have hfirst : portalAt (setConnecting (setConnecting levels2 W n1 (W, n1 + 1)) W (n1 + 1)
        (W, n1)) W n1 = f1 P1 := by
      unfold portalAt
      rw [hget4]
      show (listModify (listModify base n1 f1) (n1 + 1) f2).getD n1 defaultPortal = f1 P1
      rw [getD_listModify_ne _ _ _ _ _ (by omega)]
      rw [getD_listModify_eq _ _ _ _ (by omega)]
      rw [hbase1]
    have hsecond : portalAt (setConnecting (setConnecting levels2 W n1 (W, n1 + 1)) W (n1 + 1)
        (W, n1)) W (n1 + 1) = f2 P2 := by
      unfold portalAt
      rw [hget4]
      show (listModify (listModify base n1 f1) (n1 + 1) f2).getD (n1 + 1) defaultPortal = f2 P2
      rw [getD_listModify_eq _ _ _ _ ?_]
      · rw [getD_listModify_ne _ _ _ _ _ (by omega), hbase2]
      · rw [listModify_length, hbl]
        omega
    refine ⟨?_, ?_, ?_, ?_, ?_⟩
    · rw [hfirst]
    · rw [hsecond]
    · rw [hfirst]
    · rw [hsecond]
    · rw [hfirst, hsecond]
      show scale * (1 / scale) = 1
      field_simp
  · -- the two portals land in different world lists
    set lv1 := st.levels.getD p1.world ⟨[]⟩ with hlv1
    set n1 := lv1.portals.length with hn1
    set P1 : Portal := ⟨planeVertices p1.pos r1 p1.up (mkRight p1.out_normal), p1, (0, 0), scale⟩
      with hP1
    set levels1 := st.levels.set p1.world ⟨lv1.portals ++ [P1]⟩ with hlevels1
    have hget1 : levels1.getD p2.world ⟨[]⟩ = st.levels.getD p2.world ⟨[]⟩ :=
      getD_set_ne2 _ _ _ _ _ hw
    rw [hget1]
    set lv2 := st.levels.getD p2.world ⟨[]⟩ with hlv2
    set n2 := lv2.portals.length with hn2
    set P2 : Portal := ⟨planeVertices p2.pos r2 p2.up (mkRight p2.out_normal), p2, (0, 0),
      1 / scale⟩ with hP2
    set levels2 := levels1.set p2.world ⟨lv2.portals ++ [P2]⟩ with hlevels2
    have hl1len : levels1.length = st.levels.length := by simp [hlevels1]
    have hl2len : levels2.length = st.levels.length := by simp [hlevels2, hl1len]
    set f1 : Portal → Portal := fun p => { p with connecting := (p2.world, n2) } with hf1
    set f2 : Portal → Portal := fun p => { p with connecting := (p1.world, n1) } with hf2
    have hget21 : levels2.getD p1.world ⟨[]⟩ = ⟨lv1.portals ++ [P1]⟩ := by
      rw [hlevels2, getD_set_ne2 _ _ _ _ _ (fun hc => hw hc.symm), hlevels1]
      exact getD_set_eq2 _ _ _ _ h1
    have hget22 : levels2.getD p2.world ⟨[]⟩ = ⟨lv2.portals ++ [P2]⟩ := by
      rw [hlevels2]
      exact getD_set_eq2 _ _ _ _ (by rw [hl1len]; exact h2)
    set levels3 := setConnecting levels2 p1.world n1 (p2.world, n2) with hlevels3
    have hget31 : levels3.getD p1.world ⟨[]⟩ = ⟨listModify (lv1.portals ++ [P1]) n1 f1⟩ := by
      rw [hlevels3]
      unfold setConnecting
      rw [getD_listModify_eq _ _ _ _ (by rw [hl2len]; exact h1), hget21]
    have hget32 : levels3.getD p2.world ⟨[]⟩ = ⟨lv2.portals ++ [P2]⟩ := by
      rw [hlevels3]
      unfold setConnecting
      rw [getD_listModify_ne _ _ _ _ _ hw, hget22]
    set levels4 := setConnecting levels3 p2.world n2 (p1.world, n1) with hlevels4
    have hget41 : levels4.getD p1.world ⟨[]⟩ = ⟨listModify (lv1.portals ++ [P1]) n1 f1⟩ := by
      rw [hlevels4]
      unfold setConnecting
      rw [getD_listModify_ne _ _ _ _ _ (fun hc => hw hc.symm), hget31]
    have hget42 : levels4.getD p2.world ⟨[]⟩
        = ⟨listModify (lv2.portals ++ [P2]) n2 f2⟩ := by
      rw [hlevels4]
      unfold setConnecting
      rw [getD_listModify_eq _ _ _ _ ?_, hget32]
      rw [hlevels3]
      unfold setConnecting
      rw [listModify_length, hl2len]
      exact h2
    have hfirst : portalAt levels4 p1.world n1 = f1 P1 := by
      unfold portalAt
      rw [hget41]
      show (listModify (lv1.portals ++ [P1]) n1 f1).getD n1 defaultPortal = f1 P1
      rw [getD_listModify_eq _ _ _ _ (by simp), getD_append_self]
    have hsecond : portalAt levels4 p2.world n2 = f2 P2 := by
      unfold portalAt
      rw [hget42]
      show (listModify (lv2.portals ++ [P2]) n2 f2).getD n2 defaultPortal = f2 P2
      rw [getD_listModify_eq _ _ _ _ (by simp), getD_append_self]
    refine ⟨?_, ?_, ?_, ?_, ?_⟩
    · rw [hfirst]
    · rw [hsecond]
    · rw [hfirst]
    · rw [hsecond]
    · rw [hfirst, hsecond]
      show scale * (1 / scale) = 1
      field_simp

/-- The construction state of MagicLevel::new right before its four
add_portal calls: three worlds (normal_level, fat_tunnel, long_tunnel, whose
static geometry registered colliders 0 to 13) and the controlled body
colliders 14 and 15, so the next handle is 16. -/
def consNew0 : ConsState := ⟨[⟨[]⟩, ⟨[]⟩, ⟨[]⟩], 16, []⟩

def pA1 : PortalPos := ⟨0, ⟨1, 0, 1⟩, ⟨1, 0, 0⟩, ⟨0, 0, 1⟩, 1⟩

def pA2 : PortalPos := ⟨1, ⟨5, 0, -14⟩, ⟨-1, 0, 0⟩, ⟨0, 0, 1⟩, 5⟩

def pB1 : PortalPos := ⟨0, ⟨-1, 0, 1⟩, ⟨-1, 0, 0⟩, ⟨0, 0, 1⟩, 1⟩

def pB2 : PortalPos := ⟨1, ⟨-5, 0, -14⟩, ⟨1, 0, 0⟩, ⟨0, 0, 1⟩, 5⟩

def pC1 : PortalPos := ⟨0, ⟨5, 1, 1⟩, ⟨1, 0, 0⟩, ⟨0, 0, 1⟩, 1⟩

def pC2 : PortalPos := ⟨2, ⟨5, 0, -29⟩, ⟨-1, 0, 0⟩, ⟨0, 0, 1⟩, 1⟩

def pD1 : PortalPos := ⟨0, ⟨3, 1, 1⟩, ⟨-1, 0, 0⟩, ⟨0, 0, 1⟩, 1⟩

def pD2 : PortalPos := ⟨1, ⟨-5, 0, -29⟩, ⟨1, 0, 0⟩, ⟨0, 0, 1⟩, 5⟩

/-- The four add_portal calls of MagicLevel::new (Z_OFFSET is -15, so the
fat-tunnel portals sit at z = -14 and the long-tunnel ones at z = -29). -/
def magicNewCons : ConsState :=
  (magicAddPortal
    (magicAddPortal
      (magicAddPortal
        (magicAddPortal consNew0 pA1 pA2 1 5 5).1
        pB1 pB2 1 5 5).1
      pC1 pC2 1 1 1).1
    pD1 pD2 1 1 1).1

/-- The crossing-protocol state right after MagicLevel::new: the controlled
body starts at (-3, 3, 1) in world 0 with body bounding half-extents
(0.125, 0.125, 1) and collider handle 15. -/
def magicNewState : MagicLevel :=
  { levels := magicNewCons.levels
    me_world := 0
    bodyTranslation := ⟨-3, 3, 1⟩
    halfExtents := ⟨0.125, 0.125, 1⟩
    portals_map := magicNewCons.portals_map
    meColliderHandle := 15 }

def camNew : Camera := ⟨⟨-3, 3, 1⟩, ⟨1, 0, 0⟩⟩

/-- The handle map built by MagicLevel::new, for reference. -/
theorem sanity_portals_map : magicNewState.portals_map
    = [(16, 0, 0), (17, 1, 0), (18, 0, 1), (19, 1, 1), (20, 0, 2), (21, 2, 0),
       (22, 0, 3), (23, 1, 2)] := by decide

/-- Witness for claim C2, on the concrete level of MagicLevel::new: crossing
the world-0 portal at (1, 0, 1) multiplies the x and y half-extents by its
scale 5 and sets the active world to 1. -/
theorem update_single_crossing_witness :
    (⟨15, 16, false⟩ : ColEvent).stopped = false
    ∧ portalsMapGet magicNewState.portals_map
        (eventPortalHandle magicNewState ⟨15, 16, false⟩) = some (0, 0)
    ∧ (portalAt magicNewState.levels 0 0).scale = 5
    ∧ (MagicLevel.update magicNewState camNew [⟨15, 16, false⟩]).1.me_world = 1
    ∧ (MagicLevel.update magicNewState camNew [⟨15, 16, false⟩]).1.halfExtents
        = ⟨magicNewState.halfExtents.x * (portalAt magicNewState.levels 0 0).scale,
           magicNewState.halfExtents.y * (portalAt magicNewState.levels 0 0).scale,
           magicNewState.halfExtents.z⟩ := by
  refine ⟨rfl, by decide, rfl, ?_, ?_⟩
  · rw [update_single_crossing magicNewState camNew ⟨15, 16, false⟩ 0 0 rfl (by decide)]
    decide
  · rw [update_single_crossing magicNewState camNew ⟨15, 16, false⟩ 0 0 rfl (by decide)]

/-- Witness for claim C6: a stopped event changes nothing, and a duplicated
contact event for the world-0 portal of the concrete level is applied only
once. -/
theorem update_dedup_per_tick_witness :
    ((⟨15, 16, true⟩ : ColEvent).stopped = true
      ∧ MagicLevel.update magicNewState camNew [⟨15, 16, true⟩]
          = MagicLevel.update magicNewState camNew [])
    ∧ ((⟨15, 16, false⟩ : ColEvent).stopped = false
      ∧ portalsMapGet magicNewState.portals_map
          (eventPortalHandle magicNewState ⟨15, 16, false⟩) = some (0, 0)
      ∧ MagicLevel.update magicNewState camNew [⟨15, 16, false⟩, ⟨15, 16, false⟩]
          = MagicLevel.update magicNewState camNew [⟨15, 16, false⟩]) :=
  ⟨⟨rfl, update_dedup_per_tick.1 magicNewState camNew ⟨15, 16, true⟩ [] rfl⟩,
   ⟨rfl, by decide,
    update_dedup_per_tick.2 magicNewState camNew ⟨15, 16, false⟩ ⟨15, 16, false⟩ [] 0 0
      rfl (by decide) (by decide)⟩⟩

/-- Witness for claim C3 at the first portal pair of MagicLevel::new. -/
theorem addPortal_links_symmetric_witness :
    pA1.world < consNew0.levels.length ∧ pA2.world < consNew0.levels.length ∧ (5 : ℚ) ≠ 0
    ∧ ((portalAt (magicAddPortal consNew0 pA1 pA2 1 5 5).1.levels
          (magicAddPortal consNew0 pA1 pA2 1 5 5).2.1.1
          (magicAddPortal consNew0 pA1 pA2 1 5 5).2.1.2).connecting
        = (magicAddPortal consNew0 pA1 pA2 1 5 5).2.2
      ∧ (portalAt (magicAddPortal consNew0 pA1 pA2 1 5 5).1.levels
          (magicAddPortal consNew0 pA1 pA2 1 5 5).2.2.1
          (magicAddPortal consNew0 pA1 pA2 1 5 5).2.2.2).connecting
        = (magicAddPortal consNew0 pA1 pA2 1 5 5).2.1
      ∧ (portalAt (magicAddPortal consNew0 pA1 pA2 1 5 5).1.levels
          (magicAddPortal consNew0 pA1 pA2 1 5 5).2.1.1
          (magicAddPortal consNew0 pA1 pA2 1 5 5).2.1.2).scale = 5
      ∧ (portalAt (magicAddPortal consNew0 pA1 pA2 1 5 5).1.levels
          (magicAddPortal consNew0 pA1 pA2 1 5 5).2.2.1
          (magicAddPortal consNew0 pA1 pA2 1 5 5).2.2.2).scale = 1 / 5
      ∧ (portalAt (magicAddPortal consNew0 pA1 pA2 1 5 5).1.levels
            (magicAddPortal consNew0 pA1 pA2 1 5 5).2.1.1
            (magicAddPortal consNew0 pA1 pA2 1 5 5).2.1.2).scale
          * (portalAt (magicAddPortal consNew0 pA1 pA2 1 5 5).1.levels
              (magicAddPortal consNew0 pA1 pA2 1 5 5).2.2.1
              (magicAddPortal consNew0 pA1 pA2 1 5 5).2.2.2).scale = 1) :=
  ⟨by decide, by decide, by norm_num,
   addPortal_links_symmetric consNew0 pA1 pA2 1 5 5 (by decide) (by decide) (by norm_num)⟩

/-- A portal with half-width 2 and scale 3 used by the view-projection
witness. -/
def portalW : Portal := ⟨[], ⟨0, ⟨0, 0, 0⟩, ⟨1, 0, 0⟩, ⟨0, 0, 1⟩, 2⟩, (0, 0), 3⟩

def camA : Camera := ⟨⟨0, 1, 0⟩, ⟨1, 0, 0⟩⟩

def camB : Camera := ⟨⟨0, 5, 0⟩, ⟨1, 0, 0⟩⟩

/-- Witness for claim C5: one camera inside the half-width (lateral offset 1,
scaled to 3) and one beyond it (lateral offset 5, clamped to 9). -/
theorem fromCameraPortalForView_spec_witness :
    (|(portalW.this_.up.cross portalW.this_.out_normal).dot (camA.eye - portalW.this_.pos)|
        < portalW.this_.width
      ∧ (Coord.fromCameraPortalForView camA portalW).right
        = (portalW.this_.up.cross portalW.this_.out_normal).dot (camA.eye - portalW.this_.pos)
          * portalW.scale)
    ∧ (portalW.this_.width
        ≤ |(portalW.this_.up.cross portalW.this_.out_normal).dot (camB.eye - portalW.this_.pos)|
      ∧ (Coord.fromCameraPortalForView camB portalW).right
        = fsign ((portalW.this_.up.cross portalW.this_.out_normal).dot
              (camB.eye - portalW.this_.pos))
          * (portalW.this_.width * portalW.scale
            + (|(portalW.this_.up.cross portalW.this_.out_normal).dot
                  (camB.eye - portalW.this_.pos)| - portalW.this_.width))) :=
  ⟨⟨by norm_num [Vec3.cross, Vec3.dot, Vec3.sub_def, portalW, camA],
    (fromCameraPortalForView_spec camA portalW).2.2.1
      (by norm_num [Vec3.cross, Vec3.dot, Vec3.sub_def, portalW, camA])⟩,
   ⟨by norm_num [Vec3.cross, Vec3.dot, Vec3.sub_def, portalW, camB],
    (fromCameraPortalForView_spec camB portalW).2.2.2.1
      (by norm_num [Vec3.cross, Vec3.dot, Vec3.sub_def, portalW, camB])⟩⟩

def listJoinMap {α β : Type} (l : List α) (f : α → List β) : List β := (l.map f).join

theorem mem_listJoinMap {α β : Type} (l : List α) (f : α → List β) (b : β) :
    b ∈ listJoinMap l f ↔ ∃ a ∈ l, b ∈ f a := by
  simp [listJoinMap]

/-- Normalizing two vectors by their positive euclidean norms cannot change
the sign of their dot product: the dot product of the normalized vectors is
negative exactly when the plain dot product is.  This justifies modelling the
normalized facing comparison of render_in_portal by the plain dot
comparison. -/
theorem normalized_dot_neg_iff (ux uy uz vx vy vz : ℝ)
    (hu : 0 < Real.sqrt (ux ^ 2 + uy ^ 2 + uz ^ 2))
    (hv : 0 < Real.sqrt (vx ^ 2 + vy ^ 2 + vz ^ 2)) :
    (ux / Real.sqrt (ux ^ 2 + uy ^ 2 + uz ^ 2)) * (vx / Real.sqrt (vx ^ 2 + vy ^ 2 + vz ^ 2))
      + (uy / Real.sqrt (ux ^ 2 + uy ^ 2 + uz ^ 2))
        * (vy / Real.sqrt (vx ^ 2 + vy ^ 2 + vz ^ 2))
      + (uz / Real.sqrt (ux ^ 2 + uy ^ 2 + uz ^ 2))
        * (vz / Real.sqrt (vx ^ 2 + vy ^ 2 + vz ^ 2)) < 0
    ↔ ux * vx + uy * vy + uz * vz < 0 := by
  have hb : 0 < Real.sqrt (ux ^ 2 + uy ^ 2 + uz ^ 2)
      * Real.sqrt (vx ^ 2 + vy ^ 2 + vz ^ 2) := mul_pos hu hv
  have h : (ux / Real.sqrt (ux ^ 2 + uy ^ 2 + uz ^ 2))
        * (vx / Real.sqrt (vx ^ 2 + vy ^ 2 + vz ^ 2))
      + (uy / Real.sqrt (ux ^ 2 + uy ^ 2 + uz ^ 2))
        * (vy / Real.sqrt (vx ^ 2 + vy ^ 2 + vz ^ 2))
      + (uz / Real.sqrt (ux ^ 2 + uy ^ 2 + uz ^ 2))
        * (vz / Real.sqrt (vx ^ 2 + vy ^ 2 + vz ^ 2))
      = (ux * vx + uy * vy + uz * vz)
        / (Real.sqrt (ux ^ 2 + uy ^ 2 + uz ^ 2) * Real.sqrt (vx ^ 2 + vy ^ 2 + vz ^ 2)) := by
    field_simp
  rw [h, div_neg_iff]
  constructor
  · rintro (⟨_, hneg⟩ | ⟨ha, _⟩)
    · exact absurd hb (not_lt.mpr hneg.le)
    · exact ha
  · intro ha
    exact Or.inr ⟨ha, hb⟩

/-- Events of a recursive render trace: depth-only aperture pre-pass, scene
pass of the destination world, entry into a recursive sub-render through a
candidate portal, and composite of a finished sub-render. -/
inductive REvent where
  | depthPass (dep world idx : ℕ)
  | scenePass (dep world : ℕ)
  | enter (dep : ℕ) (cand : ℕ × ℕ)
  | composite (dep : ℕ) (cand : ℕ × ℕ)
deriving DecidableEq

/-- The recursion depth of the call that emitted an event (for enter events,
the depth of the sub-render being entered). -/
def REvent.dep : REvent → ℕ
  | .depthPass d _ _ => d
  | .scenePass d _ => d
  | .enter d _ => d
  | .composite d _ => d

/-- The data MagicLevel::render_in_portal reads: the worlds, the size of the
offscreen target pool (portal_views) and the external nalgebra
view-projection construction (Camera::build_view_projection_matrix delegates
to nalgebra perspective and look_at matrices, which are outside the modelled
core, so it enters the model as a parameter). -/
structure RenderModel where
  levels : List LevelM
  poolLen : ℕ
  buildVP : Camera → Mat4

/-- MagicLevel::render_in_portal as a trace of render events.  The two render
passes are emitted first; if the next depth would overflow the pool the call
returns; otherwise every portal of every world is considered: the entry
aperture itself is skipped, then the vertical distance cull, the
will_see_face test, and the facing test (the source compares the dot product
of the two normalized directions with zero; normalization by a positive norm
preserves the sign, and for a zero vector both the f32 comparison on NaN and
this model yield false, so the branch condition is the sign of the plain dot
product).  Kept candidates produce a recursive sub-render through their link
with the for-portal virtual camera, then a composite pass. -/
def renderInPortal (M : RenderModel) (entry : ℕ × ℕ) (recDep : ℕ) (camera : Camera) :
    List REvent :=
  let pre := [REvent.depthPass recDep entry.1 entry.2, REvent.scenePass recDep entry.1]
  if h : M.poolLen ≤ recDep + 1 then pre
  else
    pre ++ listJoinMap (List.range M.levels.length) (fun p_world =>
      listJoinMap (List.range (M.levels.getD p_world ⟨[]⟩).portals.length) (fun portal_idx =>
        if entry.2 = portal_idx ∧ p_world = entry.1 then [] else
        let this_portal := portalAt M.levels p_world portal_idx
        if 5 < |this_portal.this_.pos.z - camera.eye.z| then [] else
        if willSeeFace (M.buildVP camera) this_portal.plane = false then [] else
        let portal_me := this_portal.this_.pos - camera.eye
        let portal_view := this_portal.this_.pos - (portalAt M.levels entry.1 entry.2).this_.pos
        if portal_me.dot portal_view < 0 then [] else
        let connecting := portalAt M.levels this_portal.connecting.1 this_portal.connecting.2
        let camera_coord := Coord.fromCameraPortalForView camera this_portal
        let portal_camera := camera_coord.changeCameraForPortal camera connecting.this_
        REvent.enter (recDep + 1) (p_world, portal_idx)
          :: renderInPortal M this_portal.connecting (recDep + 1) portal_camera
          ++ [REvent.composite recDep (p_world, portal_idx)]))
termination_by M.poolLen - recDep
decreasing_by omega

set_option maxHeartbeats 3000000 in
/-- The one-step unfolding of renderInPortal (the branch guard does not use
its proof, so the dependent if of the definition is stated as a plain if). -/
theorem renderInPortal_unfold (M : RenderModel) (entry : ℕ × ℕ) (recDep : ℕ)
    (camera : Camera) :
    renderInPortal M entry recDep camera
      = if M.poolLen ≤ recDep + 1
        then [REvent.depthPass recDep entry.1 entry.2, REvent.scenePass recDep entry.1]
        else [REvent.depthPass recDep entry.1 entry.2, REvent.scenePass recDep entry.1]
          ++ listJoinMap (List.range M.levels.length) (fun p_world =>
            listJoinMap (List.range (M.levels.getD p_world ⟨[]⟩).portals.length)
              (fun portal_idx =>
                if entry.2 = portal_idx ∧ p_world = entry.1 then [] else
                if 5 < |(portalAt M.levels p_world portal_idx).this_.pos.z - camera.eye.z|
                  then [] else
                if willSeeFace (M.buildVP camera)
                    (portalAt M.levels p_world portal_idx).plane = false then [] else
                if ((portalAt M.levels p_world portal_idx).this_.pos - camera.eye).dot
                    ((portalAt M.levels p_world portal_idx).this_.pos
                      - (portalAt M.levels entry.1 entry.2).this_.pos) < 0 then [] else
                REvent.enter (recDep + 1) (p_world, portal_idx)
                  :: renderInPortal M (portalAt M.levels p_world portal_idx).connecting
                      (recDep + 1)
                      ((Coord.fromCameraPortalForView camera
                          (portalAt M.levels p_world portal_idx)).changeCameraForPortal camera
                        (portalAt M.levels
                          (portalAt M.levels p_world portal_idx).connecting.1
                          (portalAt M.levels p_world portal_idx).connecting.2).this_)
                  ++ [REvent.composite recDep (p_world, portal_idx)])) := by
  rw [renderInPortal]
  split_ifs <;> rfl

theorem render_depth_bounded_aux (n : ℕ) :
    ∀ (M : RenderModel) (entry : ℕ × ℕ) (recDep : ℕ) (camera : Camera),
      M.poolLen - recDep ≤ n → recDep < M.poolLen →
      ∀ e ∈ renderInPortal M entry recDep camera, REvent.dep e < M.poolLen := by
  induction n with
  | zero =>
    intro M entry recDep camera hn hlt e _
    omega
  | succ n ih =>
    intro M entry recDep camera hn hlt e he
    rw [renderInPortal_unfold] at he
    by_cases hb : M.poolLen ≤ recDep + 1
    · rw [if_pos hb] at he
      rcases List.mem_cons.mp he with rfl | he2
      · simpa [REvent.dep] using hlt
      · rcases List.mem_cons.mp he2 with rfl | he3
        · simpa [REvent.dep] using hlt
        · simp at he3
    · rw [if_neg hb] at he
      rcases List.mem_append.mp he with hpre | hrest
      · rcases List.mem_cons.mp hpre with rfl | hpre2
        · simpa [REvent.dep] using hlt
        · rcases List.mem_cons.mp hpre2 with rfl | hpre3
          · simpa [REvent.dep] using hlt
          · simp at hpre3
      · rw [mem_listJoinMap] at hrest
        obtain ⟨p_world, _, hin⟩ := hrest
        rw [mem_listJoinMap] at hin
        obtain ⟨portal_idx, _, hmem⟩ := hin
        split_ifs at hmem with h1 h2 h3 h4
        · simp at hmem
        · simp at hmem
        · simp at hmem
        · simp at hmem
        · rcases List.mem_cons.mp hmem with rfl | hmem2
          · simp only [REvent.dep]
            omega
          · rcases List.mem_append.mp hmem2 with hrec | hcomp
            · exact ih M _ (recDep + 1) _ (by omega) (by omega) e hrec
            · rcases List.mem_singleton.mp hcomp with rfl
              simpa [REvent.dep] using hlt

/-- Claim C1: for every call to render_in_portal at depth d below the pool
size, every event of the trace is emitted at a depth strictly below the pool
size (so a recursive sub-render is issued only when d + 1 is strictly below
the length of portal_views and recursion depth never reaches the pool size,
for any world graph, cyclic ones included); and at the bound the trace is
exactly the two render passes of the destination world (the depth pre-pass
and the scene pass run before the depth check) with no deeper recursion. -/
theorem render_in_portal_depth_bounded (M : RenderModel) (entry : ℕ × ℕ) (recDep : ℕ)
    (camera : Camera) (h : recDep < M.poolLen) :
    (∀ e ∈ renderInPortal M entry recDep camera, REvent.dep e < M.poolLen)
    ∧ (M.poolLen ≤ recDep + 1 →
        renderInPortal M entry recDep camera
          = [REvent.depthPass recDep entry.1 entry.2, REvent.scenePass recDep entry.1]) := by
  constructor
  · exact render_depth_bounded_aux (M.poolLen - recDep) M entry recDep camera le_rfl h
  · intro hb
    rw [renderInPortal_unfold, if_pos hb]

/-- The level_loop construction: one world whose two portals link to each
other (a self-referential cycle), scale 1, pool of ten offscreen targets.
The single color level registers colliders 0 to 2 and the controlled body 3
and 4, so the next handle is 5. -/
def levelLoopCons : ConsState :=
  (magicAddPortal ⟨[⟨[]⟩], 5, []⟩
    ⟨0, ⟨5, 0, 1⟩, ⟨-1, 0, 0⟩, ⟨0, 0, 1⟩, 10⟩
    ⟨0, ⟨-5, 0, 1⟩, ⟨1, 0, 0⟩, ⟨0, 0, 1⟩, 10⟩ 10 10 1).1

/-- The render inputs of MagicLevel::level_loop, parametrized by the external
view-projection construction. -/
def levelLoopRM (bvp : Camera → Mat4) : RenderModel := ⟨levelLoopCons.levels, 10, bvp⟩

/-- The level_loop world graph is a self-referential cycle: each of the two
portals of world 0 links to the other. -/
theorem sanity_level_loop_cycle :
    (portalAt levelLoopCons.levels 0 0).connecting = (0, 1)
      ∧ (portalAt levelLoopCons.levels 0 1).connecting = (0, 0) := by decide

/-- Witness for claim C1 on the self-referential level_loop graph, at the
last usable depth of the pool. -/
theorem render_in_portal_depth_bounded_witness :
    9 < (levelLoopRM (fun _ => Mat4.identity)).poolLen
    ∧ ((∀ e ∈ renderInPortal (levelLoopRM (fun _ => Mat4.identity)) (0, 0) 9 camNew,
          REvent.dep e < (levelLoopRM (fun _ => Mat4.identity)).poolLen)
      ∧ ((levelLoopRM (fun _ => Mat4.identity)).poolLen ≤ 9 + 1 →
          renderInPortal (levelLoopRM (fun _ => Mat4.identity)) (0, 0) 9 camNew
            = [REvent.depthPass 9 0 0, REvent.scenePass 9 0])) :=
  ⟨by decide,
   render_in_portal_depth_bounded (levelLoopRM (fun _ => Mat4.identity)) (0, 0) 9 camNew
    (by decide)⟩

theorem render_enter_dep_ge_aux (n : ℕ) :
    ∀ (M : RenderModel) (entry : ℕ × ℕ) (recDep : ℕ) (camera : Camera) (d : ℕ)
      (cand : ℕ × ℕ),
      M.poolLen - recDep ≤ n →
      REvent.enter d cand ∈ renderInPortal M entry recDep camera → recDep + 1 ≤ d := by
  induction n with
  | zero =>
    intro M entry recDep camera d cand hn he
    rw [renderInPortal_unfold, if_pos (by omega)] at he
    simp at he
  | succ n ih =>
    intro M entry recDep camera d cand hn he
    rw [renderInPortal_unfold] at he
    by_cases hb : M.poolLen ≤ recDep + 1
    · rw [if_pos hb] at he
      simp at he
    · rw [if_neg hb] at he
      rcases List.mem_append.mp he with hpre | hrest
      · simp at hpre
      · rw [mem_listJoinMap] at hrest
        obtain ⟨p_world, _, hin⟩ := hrest
        rw [mem_listJoinMap] at hin
        obtain ⟨portal_idx, _, hmem⟩ := hin
        split_ifs at hmem with h1 h2 h3 h4
        · simp at hmem
        · simp at hmem
        · simp at hmem
        · simp at hmem
        · rcases List.mem_cons.mp hmem with heq | hmem2
          · cases heq
            omega
          · rcases List.mem_append.mp hmem2 with hrec | hcomp
            · have := ih M _ (recDep + 1) _ d cand (by omega) hrec
              omega
            · simp at hcomp

/-- Claim C9 (amended): in a sub-render entered through aperture entry at
depth recDep, a direct recursive sub-render is entered through candidate cand
only if cand is not the entry aperture, and only if the direction from the
virtual camera to cand has nonnegative dot product with the direction from
the entry aperture to cand (the source normalizes both vectors before the
comparison, which cannot change the sign; the claim described the second
vector as camera-to-entry, but the code uses entry-to-candidate). -/
theorem render_keeps_only_facing (M : RenderModel) (entry : ℕ × ℕ) (recDep : ℕ)
    (camera : Camera) (cand : ℕ × ℕ)
    (h : REvent.enter (recDep + 1) cand ∈ renderInPortal M entry recDep camera) :
    cand ≠ entry
    ∧ 0 ≤ ((portalAt M.levels cand.1 cand.2).this_.pos - camera.eye).dot
        ((portalAt M.levels cand.1 cand.2).this_.pos
          - (portalAt M.levels entry.1 entry.2).this_.pos) := by
  rw [renderInPortal_unfold] at h
  by_cases hb : M.poolLen ≤ recDep + 1
  · rw [if_pos hb] at h
    simp at h
  · rw [if_neg hb] at h
    rcases List.mem_append.mp h with hpre | hrest
    · simp at hpre
    · rw [mem_listJoinMap] at hrest
      obtain ⟨p_world, _, hin⟩ := hrest
      rw [mem_listJoinMap] at hin
      obtain ⟨portal_idx, _, hmem⟩ := hin
      split_ifs at hmem with h1 h2 h3 h4
      · simp at hmem
      · simp at hmem
      · simp at hmem
      · simp at hmem
      · rcases List.mem_cons.mp hmem with heq | hmem2
        · cases heq
          constructor
          · intro hc
            apply h1
            rw [← hc]
            exact ⟨rfl, rfl⟩
          · exact not_lt.mp h4
        · rcases List.mem_append.mp hmem2 with hrec | hcomp
          · have := render_enter_dep_ge_aux (M.poolLen - (recDep + 1)) M _ (recDep + 1) _
              (recDep + 1) cand le_rfl hrec
            omega
          · simp at hcomp

/-- A view-projection stand-in whose projected depth is always zero, making
will_see_face accept every quad: z row zero, w row (0, 0, 0, 1). -/
def flatVP : Mat4 := ⟨1, 0, 0, 0, 0, 1, 0, 0, 0, 0, 0, 0, 0, 0, 0, 1⟩

/-- A virtual camera standing between the two level_loop portals. -/
def ceCam : Camera := ⟨⟨0, 0, 1⟩, ⟨1, 0, 0⟩⟩

/-- The trace of a sub-render of the level_loop world entered through its
second portal at depth 8 of 10, with the camera standing between the two
portals: the first portal is kept and recursed into once. -/
theorem levelLoop_trace_at8 :
    renderInPortal (levelLoopRM (fun _ => flatVP)) (0, 1) 8 ceCam
      = [REvent.depthPass 8 0 1, REvent.scenePass 8 0, REvent.enter 9 (0, 0),
         REvent.depthPass 9 0 1, REvent.scenePass 9 0, REvent.composite 8 (0, 0)] := by
  rw [renderInPortal_unfold]
  norm_num [listJoinMap, List.range_succ, portalAt, levelLoopRM, levelLoopCons, magicAddPortal,
    LevelM.addPortal, setConnecting, listModify, mkRight, planeVertices, willSeeFace,
    willSeeFaceAux, projectVertex, Mat4.mulVec4, flatVP, ceCam, Vec3.dot, Vec3.sub_def,
    Vec3.add_def, Vec3.smul, Vec3.cross, fsign, Mat4.identity]
  rw [renderInPortal_unfold]
  norm_num

/-- Counterexample for claim C9 as stated: in the level_loop world, entered
through the portal at (-5, 0, 1) with the virtual camera at the origin, the
candidate portal at (5, 0, 1) is kept and recursed into (the enter event is
in the trace) although the direction from the camera to the candidate has
negative dot product with the direction from the camera to the entry
aperture, the second vector named by the claim (both directions are nonzero,
so normalizing them cannot change the sign).  The code instead uses the
direction from the entry aperture to the candidate. -/
theorem render_prune_claim_counterexample :
    REvent.enter 9 (0, 0) ∈ renderInPortal (levelLoopRM (fun _ => flatVP)) (0, 1) 8 ceCam
    ∧ ((portalAt (levelLoopRM (fun _ => flatVP)).levels 0 0).this_.pos - ceCam.eye).dot
        ((portalAt (levelLoopRM (fun _ => flatVP)).levels 0 1).this_.pos - ceCam.eye) < 0 := by
  constructor
  · rw [levelLoop_trace_at8]
    simp
  · norm_num [portalAt, levelLoopRM, levelLoopCons, magicAddPortal, LevelM.addPortal,
      setConnecting, listModify, mkRight, planeVertices, ceCam, Vec3.dot, Vec3.sub_def,
      Vec3.add_def, Vec3.smul]

/-- Witness for the amended claim C9, at the kept candidate of the level_loop
trace above: the entered candidate differs from the entry aperture and the
code dot product (entry aperture to candidate) is nonnegative. -/
theorem render_keeps_only_facing_witness :
    (REvent.enter (8 + 1) (0, 0)
        ∈ renderInPortal (levelLoopRM (fun _ => flatVP)) (0, 1) 8 ceCam)
    ∧ (((0, 0) : ℕ × ℕ) ≠ (0, 1)
      ∧ 0 ≤ ((portalAt (levelLoopRM (fun _ => flatVP)).levels 0 0).this_.pos - ceCam.eye).dot
          ((portalAt (levelLoopRM (fun _ => flatVP)).levels 0 0).this_.pos
            - (portalAt (levelLoopRM (fun _ => flatVP)).levels 0 1).this_.pos)) := by
  have hm : REvent.enter (8 + 1) (0, 0)
      ∈ renderInPortal (levelLoopRM (fun _ => flatVP)) (0, 1) 8 ceCam := by
    rw [levelLoop_trace_at8]
    simp
  exact ⟨hm, render_keeps_only_facing (levelLoopRM (fun _ => flatVP)) (0, 1) 8 ceCam (0, 0) hm⟩

theorem fsign_mul_abs (r : ℚ) : fsign r * |r| = r := by
  unfold fsign
  rcases lt_trichotomy r 0 with h | h | h
  · rw [if_pos h, abs_of_neg h]
    ring
  · simp [h]
  · rw [if_neg (not_lt.mpr h.le), abs_of_pos h]
    ring

theorem abs_fsign_mul (r m : ℚ) (hm : 0 ≤ m) : |fsign r * m| = m := by
  unfold fsign
  split_ifs <;> simp [abs_of_nonneg hm]

/-- Crossing the half-width clamp forward with scale s and back with scale
1/s at the linked half-width w*s restores the lateral offset exactly. -/
theorem clampView_round (r w s : ℚ) (hs : 0 < s) (hw : 0 ≤ w) :
    clampView (-(clampView r w s)) (w * s) (1 / s) = -r := by
  unfold clampView
  by_cases h : w ≤ |r|
  · rw [if_pos h]
    have hM : 0 ≤ w * s + (|r| - w) := by nlinarith
    have habs : |(-(fsign r * (w * s + (|r| - w))))| = w * s + (|r| - w) := by
      rw [abs_neg, abs_fsign_mul _ _ hM]
    rw [if_pos (by rw [habs]; nlinarith)]
    rcases lt_trichotomy r 0 with hr | hr | hr
    · have hfs : fsign r = -1 := if_pos hr
      rw [habs, hfs]
      have : (0 : ℚ) ≤ w * s + (|r| - w) := hM
      have hfs2 : fsign (-(-1 * (w * s + (|r| - w)))) = 1 := by
        unfold fsign
        rw [if_neg]
        nlinarith
      rw [hfs2, abs_of_neg hr]
      field_simp
    · subst hr
      simp at h
      have hww : w = 0 := le_antisymm h hw
      subst hww
      norm_num [fsign]
    · have hfs : fsign r = 1 := by
        unfold fsign
        rw [if_neg (not_lt.mpr hr.le)]
      have hr2 : w ≤ r := by rwa [abs_of_pos hr] at h
      have hMpos : 0 < w * s + (|r| - w) := by
        rw [abs_of_pos hr]
        rcases eq_or_lt_of_le hw with hw0 | hw0
        · nlinarith
        · nlinarith [mul_pos hw0 hs]
      rw [habs, hfs]
      have hfs2 : fsign (-(1 * (w * s + (|r| - w)))) = -1 := by
        unfold fsign
        rw [if_pos]
        nlinarith
      rw [hfs2, abs_of_pos hr]
      field_simp
  · rw [if_neg h]
    push_neg at h
    have habs : |(-(r * s))| = |r| * s := by
      rw [abs_neg, abs_mul, abs_of_pos hs]
    rw [if_neg (by rw [habs]; nlinarith)]
    field_simp

/-- With scale 1 the half-width clamp is the identity, whatever the width. -/
theorem clampView_one (r w : ℚ) : clampView r w 1 = r := by
  unfold clampView
  split_ifs with h
  · show fsign r * (w * 1 + (|r| - w)) = r
    have hsum : w * 1 + (|r| - w) = |r| := by ring
    rw [hsum, fsign_mul_abs]
  · rw [mul_one]

/-- Projections of a combination a*up - b*normal - c*right on an orthonormal
portal frame (right = up x normal). -/
theorem dot_comb (n u : Vec3) (a b c : ℚ) (h1 : u.dot n = 0) (h2 : u.dot u = 1)
    (h3 : n.dot n = 1) :
    n.dot (Vec3.smul a u - Vec3.smul b n - Vec3.smul c (u.cross n)) = -b
    ∧ u.dot (Vec3.smul a u - Vec3.smul b n - Vec3.smul c (u.cross n)) = a
    ∧ (u.cross n).dot (Vec3.smul a u - Vec3.smul b n - Vec3.smul c (u.cross n)) = -c := by
  simp only [Vec3.dot, Vec3.cross, Vec3.smul, Vec3.sub_def] at h1 h2 h3 ⊢
  refine ⟨?_, ?_, ?_⟩
  · linear_combination a * h1 - b * h3
  · linear_combination a * h2 - b * h1
  · linear_combination (-c * (n.x * n.x + n.y * n.y + n.z * n.z)) * h2 + (-c) * h3
      + (c * (u.x * n.x + u.y * n.y + u.z * n.z)) * h1

/-- An orthonormal frame (normal, up, up x normal) is complete: summing the
three projections reconstructs the vector. -/
theorem orthonormal_decomp (n u d : Vec3) (h1 : u.dot n = 0) (h2 : u.dot u = 1)
    (h3 : n.dot n = 1) :
    Vec3.smul (u.dot d) u + Vec3.smul (n.dot d) n
      + Vec3.smul ((u.cross n).dot d) (u.cross n) = d := by
  apply Vec3.ext_comp <;>
    simp only [Vec3.dot, Vec3.cross, Vec3.smul, Vec3.add_def] at h1 h2 h3 ⊢
  · linear_combination
      (-(d.x * u.x + d.y * u.y + d.z * u.z) * u.x
          + d.x * (u.x * u.x + u.y * u.y + u.z * u.z)) * h3
      + (-(d.x * n.x + d.y * n.y + d.z * n.z) * n.x + d.x) * h2
      + ((d.x * n.x + d.y * n.y + d.z * n.z) * u.x
          + (d.x * u.x + d.y * u.y + d.z * u.z) * n.x
          - d.x * (u.x * n.x + u.y * n.y + u.z * n.z)) * h1
  · linear_combination
      (-(d.x * u.x + d.y * u.y + d.z * u.z) * u.y
          + d.y * (u.x * u.x + u.y * u.y + u.z * u.z)) * h3
      + (-(d.x * n.x + d.y * n.y + d.z * n.z) * n.y + d.y) * h2
      + ((d.x * n.x + d.y * n.y + d.z * n.z) * u.y
          + (d.x * u.x + d.y * u.y + d.z * u.z) * n.y
          - d.y * (u.x * n.x + u.y * n.y + u.z * n.z)) * h1
  · linear_combination
      (-(d.x * u.x + d.y * u.y + d.z * u.z) * u.z
          + d.z * (u.x * u.x + u.y * u.y + u.z * u.z)) * h3
      + (-(d.x * n.x + d.y * n.y + d.z * n.z) * n.z + d.z) * h2
      + ((d.x * n.x + d.y * n.y + d.z * n.z) * u.z
          + (d.x * u.x + d.y * u.y + d.z * u.z) * n.z
          - d.z * (u.x * n.x + u.y * n.y + u.z * n.z)) * h1

theorem Camera.ext_eye_target (a b : Camera) (h1 : a.eye = b.eye) (h2 : a.target = b.target) :
    a = b := by
  cases a; cases b; simp_all

/-- The double application of the rendering virtual-camera placement: project
the pose with the view projection at A, reconstruct with the for-portal
transform at the linked aperture B, then project at B and reconstruct back at
A. -/
def roundTripFor (cam : Camera) (A B : Portal) : Camera :=
  let c1 := Coord.fromCameraPortalForView cam A
  let cam1 := c1.changeCameraForPortal cam B.this_
  let c2 := Coord.fromCameraPortalForView cam1 B
  c2.changeCameraForPortal cam1 A.this_

/-- Claim C7 (amended): for orthonormal portal frames with reciprocal scales
and positive scale at A, whenever the half-widths are compatible (the width
of B equal to the scale of A times the nonnegative width of A) or the scale
of A is 1 (where the clamp is the identity and the widths play no role), the
round trip through the view projection and the for-portal reconstruction
restores the camera pose exactly.  Every pair built by the level constructors
satisfies one of the two conditions: the scaled pairs have widths 1 and 5 at
scale 5, and all pairs with mismatched widths have scale 1. -/
theorem roundTripFor_exact (cam : Camera) (A B : Portal)
    (hA1 : A.this_.up.dot A.this_.out_normal = 0)
    (hA2 : A.this_.up.dot A.this_.up = 1)
    (hA3 : A.this_.out_normal.dot A.this_.out_normal = 1)
    (hB1 : B.this_.up.dot B.this_.out_normal = 0)
    (hB2 : B.this_.up.dot B.this_.up = 1)
    (hB3 : B.this_.out_normal.dot B.this_.out_normal = 1)
    (hs : 0 < A.scale)
    (hrecip : A.scale * B.scale = 1)
    (hw : (B.this_.width = A.scale * A.this_.width ∧ 0 ≤ A.this_.width)
      ∨ A.scale = 1) :
    roundTripFor cam A B = cam := by
  have hBs : B.scale = 1 / A.scale := by
    rw [eq_div_iff (ne_of_gt hs)]
    linear_combination hrecip
  set cam1 := (Coord.fromCameraPortalForView cam A).changeCameraForPortal cam B.this_
    with hcam1def
  have hdis2 : cam1.eye - B.this_.pos
      = Vec3.smul ((Coord.fromCameraPortalForView cam A).up) B.this_.up
        - Vec3.smul ((Coord.fromCameraPortalForView cam A).forward) B.this_.out_normal
        - Vec3.smul ((Coord.fromCameraPortalForView cam A).right)
            (B.this_.up.cross B.this_.out_normal) := by
    rw [hcam1def]
    apply Vec3.ext_comp <;>
      simp [Coord.changeCameraForPortal, Vec3.smul, Vec3.sub_def, Vec3.add_def, Vec3.cross,
        Vec3.neg] <;> ring
  have htarg1 : cam1.target
      = Vec3.smul ((Coord.fromCameraPortalForView cam A).target_up) B.this_.up
        - Vec3.smul ((Coord.fromCameraPortalForView cam A).target_forward) B.this_.out_normal
        - Vec3.smul ((Coord.fromCameraPortalForView cam A).target_right)
            (B.this_.up.cross B.this_.out_normal) := by
    rw [hcam1def]
    apply Vec3.ext_comp <;>
      simp [Coord.changeCameraForPortal, Vec3.smul, Vec3.sub_def, Vec3.add_def, Vec3.cross,
        Vec3.neg] <;> ring
  obtain ⟨hn2, hu2, hr2⟩ := dot_comb B.this_.out_normal B.this_.up
    ((Coord.fromCameraPortalForView cam A).up) ((Coord.fromCameraPortalForView cam A).forward)
    ((Coord.fromCameraPortalForView cam A).right) hB1 hB2 hB3
  obtain ⟨hn2t, hu2t, hr2t⟩ := dot_comb B.this_.out_normal B.this_.up
    ((Coord.fromCameraPortalForView cam A).target_up)
    ((Coord.fromCameraPortalForView cam A).target_forward)
    ((Coord.fromCameraPortalForView cam A).target_right) hB1 hB2 hB3
  have hupval : (Coord.fromCameraPortalForView cam A).up * B.scale
      = A.this_.up.dot (cam.eye - A.this_.pos) := by
    show A.this_.up.dot (cam.eye - A.this_.pos) * A.scale * B.scale = _
    rw [hBs]
    field_simp
  have hrightval : clampView (-(Coord.fromCameraPortalForView cam A).right) B.this_.width
        B.scale
      = -((A.this_.up.cross A.this_.out_normal).dot (cam.eye - A.this_.pos)) := by
    show clampView
        (-(clampView ((A.this_.up.cross A.this_.out_normal).dot (cam.eye - A.this_.pos))
          A.this_.width A.scale)) B.this_.width B.scale = _
    rcases hw with ⟨hww, hw0⟩ | hone
    · rw [hww, hBs, mul_comm A.scale A.this_.width]
      exact clampView_round _ _ _ hs hw0
    · have hBone : B.scale = 1 := by
        rw [hBs, hone]
        norm_num
      rw [hone, hBone, clampView_one, clampView_one]
  have hdec := orthonormal_decomp A.this_.out_normal A.this_.up (cam.eye - A.this_.pos)
    hA1 hA2 hA3
  have hdect := orthonormal_decomp A.this_.out_normal A.this_.up cam.target hA1 hA2 hA3
  apply Camera.ext_eye_target
  · have he : (roundTripFor cam A B).eye
        = Vec3.smul (B.this_.up.dot (cam1.eye - B.this_.pos) * B.scale) A.this_.up
          - Vec3.smul (B.this_.out_normal.dot (cam1.eye - B.this_.pos)) A.this_.out_normal
          - Vec3.smul (clampView
              ((B.this_.up.cross B.this_.out_normal).dot (cam1.eye - B.this_.pos))
              B.this_.width B.scale)
            (A.this_.up.cross A.this_.out_normal)
          + A.this_.pos := rfl
    rw [he, hdis2, hn2, hu2, hr2, hupval, hrightval]
    rw [show (Coord.fromCameraPortalForView cam A).forward
        = A.this_.out_normal.dot (cam.eye - A.this_.pos) from rfl]
    have hdx := congrArg Vec3.x hdec
    have hdy := congrArg Vec3.y hdec
    have hdz := congrArg Vec3.z hdec
    simp only [Vec3.smul, Vec3.add_def, Vec3.sub_def, Vec3.cross, Vec3.dot,
      Vec3.neg] at hdx hdy hdz
    apply Vec3.ext_comp <;>
      simp only [Vec3.smul, Vec3.add_def, Vec3.sub_def, Vec3.cross, Vec3.dot, Vec3.neg]
    · linear_combination hdx
    · linear_combination hdy
    · linear_combination hdz
  · have ht : (roundTripFor cam A B).target
        = Vec3.smul (B.this_.up.dot cam1.target) A.this_.up
          - Vec3.smul (B.this_.out_normal.dot cam1.target) A.this_.out_normal
          + Vec3.smul ((B.this_.up.cross B.this_.out_normal).dot cam1.target)
            (A.this_.up.cross (Vec3.neg A.this_.out_normal)) := rfl
    rw [ht, htarg1, hn2t, hu2t, hr2t]
    rw [show (Coord.fromCameraPortalForView cam A).target_up
          = A.this_.up.dot cam.target from rfl,
        show (Coord.fromCameraPortalForView cam A).target_forward
          = A.this_.out_normal.dot cam.target from rfl,
        show (Coord.fromCameraPortalForView cam A).target_right
          = (A.this_.up.cross A.this_.out_normal).dot cam.target from rfl]
    have hdx := congrArg Vec3.x hdect
    have hdy := congrArg Vec3.y hdect
    have hdz := congrArg Vec3.z hdect
    simp only [Vec3.smul, Vec3.add_def, Vec3.sub_def, Vec3.cross, Vec3.dot,
      Vec3.neg] at hdx hdy hdz
    apply Vec3.ext_comp <;>
      simp only [Vec3.smul, Vec3.add_def, Vec3.sub_def, Vec3.cross, Vec3.dot, Vec3.neg]
    · linear_combination hdx
    · linear_combination hdy
    · linear_combination hdz

def ceA7 : Portal := ⟨[], ⟨0, ⟨0, 0, 0⟩, ⟨1, 0, 0⟩, ⟨0, 0, 1⟩, 1⟩, (1, 0), 5⟩

def ceB7 : Portal := ⟨[], ⟨1, ⟨0, 0, 0⟩, ⟨-1, 0, 0⟩, ⟨0, 0, 1⟩, 1⟩, (0, 0), 1 / 5⟩

def cam7 : Camera := ⟨⟨0, 1 / 2, 0⟩, ⟨1, 0, 0⟩⟩

theorem roundTripFor_claim_counterexample :
    ceA7.scale * ceB7.scale = 1
    ∧ (roundTripFor cam7 ceA7 ceB7).eye.y - cam7.eye.y = 6 / 5
    ∧ (roundTripFor cam7 ceA7 ceB7).eye ≠ cam7.eye := by
  refine ⟨by norm_num [ceA7, ceB7], ?_, ?_⟩
  · norm_num [roundTripFor, Coord.fromCameraPortalForView, Coord.changeCameraForPortal,
      clampView, fsign, ceA7, ceB7, cam7, Vec3.dot, Vec3.cross, Vec3.smul, Vec3.sub_def,
      Vec3.add_def, Vec3.neg, abs_of_nonneg, abs_of_nonpos]
  · norm_num [roundTripFor, Coord.fromCameraPortalForView, Coord.changeCameraForPortal,
      clampView, fsign, ceA7, ceB7, cam7, Vec3.dot, Vec3.cross, Vec3.smul, Vec3.sub_def,
      Vec3.add_def, Vec3.neg, Vec3.mk.injEq, abs_of_nonneg, abs_of_nonpos]


/-- Witness for the amended claim C7, at the first portal pair built by
MagicLevel::new (world-0 portal of width 1 and scale 5, world-1 portal of
width 5 and scale 1/5). -/
theorem roundTripFor_exact_witness :
    ((portalAt magicNewState.levels 0 0).this_.up.dot
        (portalAt magicNewState.levels 0 0).this_.out_normal = 0)
    ∧ ((portalAt magicNewState.levels 0 0).this_.up.dot
        (portalAt magicNewState.levels 0 0).this_.up = 1)
    ∧ ((portalAt magicNewState.levels 0 0).this_.out_normal.dot
        (portalAt magicNewState.levels 0 0).this_.out_normal = 1)
    ∧ ((portalAt magicNewState.levels 1 0).this_.up.dot
        (portalAt magicNewState.levels 1 0).this_.out_normal = 0)
    ∧ ((portalAt magicNewState.levels 1 0).this_.up.dot
        (portalAt magicNewState.levels 1 0).this_.up = 1)
    ∧ ((portalAt magicNewState.levels 1 0).this_.out_normal.dot
        (portalAt magicNewState.levels 1 0).this_.out_normal = 1)
    ∧ (0 < (portalAt magicNewState.levels 0 0).scale)
    ∧ ((portalAt magicNewState.levels 0 0).scale * (portalAt magicNewState.levels 1 0).scale
        = 1)
    ∧ (((portalAt magicNewState.levels 1 0).this_.width
          = (portalAt magicNewState.levels 0 0).scale
            * (portalAt magicNewState.levels 0 0).this_.width
        ∧ 0 ≤ (portalAt magicNewState.levels 0 0).this_.width)
      ∨ (portalAt magicNewState.levels 0 0).scale = 1)
    ∧ roundTripFor camNew (portalAt magicNewState.levels 0 0)
        (portalAt magicNewState.levels 1 0) = camNew := by
  have hA : (portalAt magicNewState.levels 0 0).this_ = pA1 := rfl
  have hB : (portalAt magicNewState.levels 1 0).this_ = pA2 := rfl
  have hAs : (portalAt magicNewState.levels 0 0).scale = 5 := rfl
  have hBs : (portalAt magicNewState.levels 1 0).scale = 1 / 5 := rfl
  have h1 : (portalAt magicNewState.levels 0 0).this_.up.dot
      (portalAt magicNewState.levels 0 0).this_.out_normal = 0 := by
    rw [hA]; norm_num [pA1, Vec3.dot]
  have h2 : (portalAt magicNewState.levels 0 0).this_.up.dot
      (portalAt magicNewState.levels 0 0).this_.up = 1 := by
    rw [hA]; norm_num [pA1, Vec3.dot]
  have h3 : (portalAt magicNewState.levels 0 0).this_.out_normal.dot
      (portalAt magicNewState.levels 0 0).this_.out_normal = 1 := by
    rw [hA]; norm_num [pA1, Vec3.dot]
  have h4 : (portalAt magicNewState.levels 1 0).this_.up.dot
      (portalAt magicNewState.levels 1 0).this_.out_normal = 0 := by
    rw [hB]; norm_num [pA2, Vec3.dot]
  have h5 : (portalAt magicNewState.levels 1 0).this_.up.dot
      (portalAt magicNewState.levels 1 0).this_.up = 1 := by
    rw [hB]; norm_num [pA2, Vec3.dot]
  have h6 : (portalAt magicNewState.levels 1 0).this_.out_normal.dot
      (portalAt magicNewState.levels 1 0).this_.out_normal = 1 := by
    rw [hB]; norm_num [pA2, Vec3.dot]
  have h7 : 0 < (portalAt magicNewState.levels 0 0).scale := by
    rw [hAs]; norm_num
  have h8 : (portalAt magicNewState.levels 0 0).scale
      * (portalAt magicNewState.levels 1 0).scale = 1 := by
    rw [hAs, hBs]; norm_num
  have h9 : ((portalAt magicNewState.levels 1 0).this_.width
        = (portalAt magicNewState.levels 0 0).scale
          * (portalAt magicNewState.levels 0 0).this_.width
      ∧ 0 ≤ (portalAt magicNewState.levels 0 0).this_.width)
      ∨ (portalAt magicNewState.levels 0 0).scale = 1 := by
    left
    constructor
    · rw [hA, hB, hAs]; norm_num [pA1, pA2]
    · rw [hA]; norm_num [pA1]
  exact ⟨h1, h2, h3, h4, h5, h6, h7, h8, h9,
    roundTripFor_exact camNew (portalAt magicNewState.levels 0 0)
      (portalAt magicNewState.levels 1 0) h1 h2 h3 h4 h5 h6 h7 h8 h9⟩
